import Mathlib

/-!
Shallow embedding of the gesture-to-stroke core of the hand_detection
repository (Virtual Drawing Board).  The ledger of strokes lives in
`VideoThread.lines`; its mutating operations are `add_line`,
`check_for_new_line`, `undo` and `clear`, identical in both application
variants (`src/VirtualDrawingBoard/app.py` and `src/app.py`).
-/

namespace HandDetection

/-- Pixel coordinate pair `(x, y)` as produced by `get_coordinates`
(normalized landmark coordinates scaled by frame width/height and
truncated to integers). -/
structure Pt where
  x : Int
  y : Int
deriving DecidableEq

/-- Current settings at append time: `settings.line_thickness` and
`settings.line_color` (an RGB triple), from `SettingsWindow`. -/
structure Style where
  line_thickness : Nat
  line_color : Nat × Nat × Nat
deriving DecidableEq

/-- One recorded point of a line, stored by `add_line` as
`[(x, y), settings.line_thickness, settings.line_color]`. -/
structure StrokePoint where
  pos : Pt
  thickness : Nat
  color : Nat × Nat × Nat
deriving DecidableEq

/-- A single line of the drawing: `self.lines[i]` in the Python source. -/
abbrev Stroke := List StrokePoint

/-- The whole `self.lines` list; initialised to `[[]]` in `__init__`. -/
abbrev Ledger := List Stroke

/-- Default stroke point, used only as the (unreachable) fallback of
list indexing. -/
def dfltSP : StrokePoint := ⟨⟨0, 0⟩, 0, (0, 0, 0)⟩

/-- The last stroke, `self.lines[len(self.lines) - 1]`.  In Python this
indexing would fail on an empty list; every reachable ledger is
non-empty, so the `[]` fallback is never hit there. -/
def lastStroke (l : Ledger) : Stroke := l.getLastD []

/-- `add_line(x, y)`:
`self.lines[len(self.lines) - 1].append([(x, y), settings.line_thickness, settings.line_color])`. -/
def add_line (st : Style) (p : Pt) (l : Ledger) : Ledger :=
  l.dropLast ++ [lastStroke l ++ [⟨p, st.line_thickness, st.line_color⟩]]

/-- `check_for_new_line()`: `if self.lines[len(self.lines) - 1]: self.lines.append([])`. -/
def check_for_new_line (l : Ledger) : Ledger :=
  if lastStroke l ≠ [] then l ++ [[]] else l

/-- `clear()`: `self.lines = [[]]`. -/
def clear : Ledger := [[]]

/-- `undo()`:
`delete_number = 1 if self.lines[len(self.lines) - 1] else 2`;
`self.lines = self.lines[:-delete_number]`;
`self.check_for_new_line() if self.lines else self.clear()`.
Python's `l[:-d]` (for `d ∈ {1,2}`) is `l.take (l.length - d)`. -/
def undo (l : Ledger) : Ledger :=
  let delete_number : Nat := if lastStroke l ≠ [] then 1 else 2
  let l₂ := l.take (l.length - delete_number)
  if l₂ ≠ [] then check_for_new_line l₂ else clear

/-- The last-only-empty invariant: the ledger is non-empty and every
stroke except possibly the last one is non-empty. -/
def Inv (l : Ledger) : Prop := l ≠ [] ∧ ∀ s ∈ l.dropLast, s ≠ []

/-- The closed (non-empty) strokes of a ledger; under `Inv` these are
exactly the strokes other than a trailing empty placeholder. -/
def closedStrokes (l : Ledger) : Ledger := l.filter (fun s => !s.isEmpty)

/-- The ledger operations reachable from the video thread and the GUI:
point append (`add_line`, from an active frame), stroke boundary
(`check_for_new_line`, from an inactive frame, lost tracking or draw
toggling), `undo` and `clear` (button commands). -/
inductive LedgerOp where
  | append (st : Style) (p : Pt)
  | boundary
  | undoOp
  | clearOp

/-- Apply one ledger operation to the current `self.lines`. -/
def applyOp (l : Ledger) : LedgerOp → Ledger
  | .append st p => add_line st p l
  | .boundary => check_for_new_line l
  | .undoOp => undo l
  | .clearOp => clear

/-- Run a sequence of ledger operations from the initial
`self.lines = [[]]` of `__init__`. -/
def applyOps (ops : List LedgerOp) : Ledger := ops.foldl applyOp [[]]

/-- One normalized hand landmark from MediaPipe; floats are embedded as
rationals (only order comparisons on them matter to the claims). -/
structure Landmark where
  x : ℚ
  y : ℚ
deriving DecidableEq

/-- Default landmark, the (unreachable in Python) list-indexing fallback. -/
def dfltLM : Landmark := ⟨0, 0⟩

/-- MediaPipe `HandLandmark.INDEX_FINGER_TIP`. -/
def INDEX_FINGER_TIP : Nat := 8

/-- MediaPipe `HandLandmark.THUMB_TIP`. -/
def THUMB_TIP : Nat := 4

/-- Python `int()` on a rational: truncation toward zero. -/
def pyInt (q : ℚ) : Int := q.num.tdiv (q.den : Int)

/-- State of the video thread that the claims are about:
`self.lines` and `self.draw` (DrawEnabled). -/
structure VState where
  lines : Ledger
  draw : Bool
deriving DecidableEq

/-- Observable effects of one successfully-read frame of the
pinch-variant loop body. -/
structure FrameEffects where
  state : VState
  indicatorDrawn : Bool
  pointAppended : Bool
deriving DecidableEq

namespace VDB

/-- `self.pinch_tolerance = 0.05` in `src/VirtualDrawingBoard/app.py`. -/
def pinch_tolerance : ℚ := 5 / 100

/-- `check_if_pinched(landmarks)` of `src/VirtualDrawingBoard/app.py`:
true iff both coordinate differences between the index fingertip and the
thumb tip are below the tolerance.  (Its `check_for_new_line()` side
effect on the False path is part of `run_frame` below.) -/
def check_if_pinched (landmarks : List Landmark) : Bool :=
  let ift := landmarks.getD INDEX_FINGER_TIP dfltLM
  let tt := landmarks.getD THUMB_TIP dfltLM
  decide (|ift.x - tt.x| < pinch_tolerance ∧ |ift.y - tt.y| < pinch_tolerance)

/-- `get_coordinates` of `src/VirtualDrawingBoard/app.py`: midpoint of
index fingertip and thumb tip scaled to pixel space. -/
def get_coordinates (landmarks : List Landmark) (image_width image_height : Nat) : Pt :=
  let ift := landmarks.getD INDEX_FINGER_TIP dfltLM
  let tt := landmarks.getD THUMB_TIP dfltLM
  ⟨pyInt ((ift.x + tt.x) / 2 * image_width), pyInt ((ift.y + tt.y) / 2 * image_height)⟩

/-- Body of the `while` loop of `run()` in `src/VirtualDrawingBoard/app.py`
for one successfully read frame, given the `hands.process` result
(`none` = no hand).  Covers: the `check_if_pinched` call with its
`check_for_new_line` side effect, the conditional `add_line`, the
`check_for_new_line` of the no-hand branch, and the conditional
`draw_indicator` (`if results and self.draw and not is_pinched`). -/
def run_frame (st : Style) (obs : Option (List Landmark))
    (image_width image_height : Nat) (s : VState) : FrameEffects :=
  match obs with
  | none => ⟨⟨check_for_new_line s.lines, s.draw⟩, false, false⟩
  | some landmarks =>
      let p := get_coordinates landmarks image_width image_height
      if check_if_pinched landmarks then
        if s.draw then ⟨⟨add_line st p s.lines, s.draw⟩, false, true⟩
        else ⟨⟨s.lines, s.draw⟩, false, false⟩
      else ⟨⟨check_for_new_line s.lines, s.draw⟩, s.draw, false⟩

end VDB

namespace Legacy

/-- `check_if_index_finger_is_up(landmarks)` of `src/app.py`: the loop
`for landmark in landmarks` skips landmarks with
`landmark.y >= landmarks[tip].y` and returns False at the first landmark
strictly above the tip, so it returns True iff every landmark's y is at
least the tip's y.  (Its `check_for_new_line()` side effect on the False
path is part of `run_frame` below.) -/
def check_if_index_finger_is_up (landmarks : List Landmark) : Bool :=
  landmarks.all fun landmark =>
    decide ((landmarks.getD INDEX_FINGER_TIP dfltLM).y ≤ landmark.y)

/-- `get_coordinates` of `src/app.py`: the index fingertip scaled to
pixel space. -/
def get_coordinates (landmarks : List Landmark) (image_width image_height : Nat) : Pt :=
  ⟨pyInt ((landmarks.getD INDEX_FINGER_TIP dfltLM).x * image_width),
    pyInt ((landmarks.getD INDEX_FINGER_TIP dfltLM).y * image_height)⟩

/-- Observable effects of the hand-processing part of one legacy loop
iteration (`src/app.py`), given the `hands.process` result.  The circle
indicator is drawn when `result and is_index_finger_up`. -/
structure Effects where
  state : VState
  circleDrawn : Bool
  pointAppended : Bool
deriving DecidableEq

/-- Hand-processing body of the `while` loop of `run()` in `src/app.py`
(everything between `hands.process` and the emit). -/
def run_frame (st : Style) (obs : Option (List Landmark))
    (image_width image_height : Nat) (s : VState) : Effects :=
  match obs with
  | none => ⟨⟨check_for_new_line s.lines, s.draw⟩, false, false⟩
  | some landmarks =>
      if check_if_index_finger_is_up landmarks then
        let p := get_coordinates landmarks image_width image_height
        if s.draw then ⟨⟨add_line st p s.lines, s.draw⟩, true, true⟩
        else ⟨⟨s.lines, s.draw⟩, true, false⟩
      else ⟨⟨check_for_new_line s.lines, s.draw⟩, false, false⟩

end Legacy

/-- Per-frame input to the pinch-variant loop: current settings, the
`hands.process` result, and the frame dimensions. -/
structure FrameIn where
  st : Style
  obs : Option (List Landmark)
  image_width : Nat
  image_height : Nat

/-- Whether `results` is truthy for this frame. -/
def handPresent (obs : Option (List Landmark)) : Bool := obs.isSome

/-- Gesture classification of a frame in the pinch variant: inactive
when no hand is present, otherwise `check_if_pinched`. -/
def gestureActive (obs : Option (List Landmark)) : Bool :=
  match obs with
  | none => false
  | some landmarks => VDB.check_if_pinched landmarks

/-- State transition of one pinch-variant frame. -/
def stepFrame (s : VState) (f : FrameIn) : VState :=
  (VDB.run_frame f.st f.obs f.image_width f.image_height s).state

/-- State after a sequence of pinch-variant frames. -/
def runFrames (s : VState) (fs : List FrameIn) : VState := fs.foldl stepFrame s

/-- The events that can touch the video-thread state: a processed frame,
or one of the GUI commands `toggle_draw`, `undo`, `clear`. -/
inductive Event where
  | frame (f : FrameIn)
  | toggle
  | undoCmd
  | clearCmd

/-- Event semantics: `toggle_draw` flips `self.draw` and calls
`check_for_new_line`; `undo` and `clear` act on `self.lines`. -/
def stepEvent (s : VState) : Event → VState
  | .frame f => stepFrame s f
  | .toggle => ⟨check_for_new_line s.lines, !s.draw⟩
  | .undoCmd => ⟨undo s.lines, s.draw⟩
  | .clearCmd => ⟨clear, s.draw⟩

/-- The state built by `__init__`: `self.lines = [[]]`, `self.draw = True`. -/
def initState : VState := ⟨[[]], true⟩

/-- States reachable by any interleaving of frames and GUI commands. -/
def Reachable (s : VState) : Prop :=
  ∃ evs : List Event, s = evs.foldl stepEvent initState

/-- Outcome of one full iteration of the pinch-variant `while` loop,
starting at `self.video.read()` (`none` = read failure). -/
structure IterationOut where
  halted : Bool
  errorEmitted : Bool
  frameUsed : Bool
  state : VState
deriving DecidableEq

/-- One iteration of the `while` loop of `src/VirtualDrawingBoard/app.py`:
on read failure (`if not success`) it emits `error_signal` and `break`s
without ever touching the frame; otherwise the frame is unpacked,
processed and rendered. -/
def VDB.run_iteration (read : Option (Nat × Nat)) (obs : Option (List Landmark))
    (st : Style) (s : VState) : IterationOut :=
  match read with
  | none => ⟨true, true, false, s⟩
  | some wh => ⟨false, false, true, (VDB.run_frame st obs wh.1 wh.2 s).state⟩

/-- Outcome of one full iteration of the legacy `while` loop of
`src/app.py`.  `crash` is the uncaught exception raised by
`image_height, image_width, _ = image.shape` when the failed read
returned no frame (`image = None`); the legacy thread has no
`error_signal` at all, only the data signal guarded by `if success`. -/
inductive LegacyIterationOut where
  | crash
  | next (s : VState) (dataEmitted : Bool)
deriving DecidableEq

/-- One iteration of the legacy `while` loop of `src/app.py`: the frame
is unpacked (`image.shape`) before `success` is ever consulted, so a
failed read crashes the thread; on success the frame is processed and
the data signal is emitted. -/
def Legacy.run_iteration (read : Option (Nat × Nat)) (obs : Option (List Landmark))
    (st : Style) (s : VState) : LegacyIterationOut :=
  match read with
  | none => .crash
  | some wh => .next (Legacy.run_frame st obs wh.1 wh.2 s).state true

/-- BGR reversal `tuple(reversed(color))` applied by `draw_lines` and
`draw_indicator` before handing a color to OpenCV. -/
def revColor (c : Nat × Nat × Nat) : Nat × Nat × Nat := (c.2.2, c.2.1, c.1)

/-- One `cv2.line(image, old_position, new_position, color, thickness)`
call recorded by `draw_lines`. -/
structure LineOp where
  p₁ : Pt
  p₂ : Pt
  color : Nat × Nat × Nat
  thickness : Nat
deriving DecidableEq

/-- Default line op, the list-indexing fallback. -/
def dfltLO : LineOp := ⟨⟨0, 0⟩, ⟨0, 0⟩, (0, 0, 0), 0⟩

/-- The `cv2.line` calls that `draw_lines` issues for one line:
`for i in range(len(line)): if i == 0: continue;
cv2.line(image, line[i-1][0], line[i][0], tuple(reversed(line[i-1][2])), line[i-1][1])`. -/
def lineOps (line : Stroke) : List LineOp :=
  (List.range line.length).filterMap fun i =>
    if i = 0 then none
    else some ⟨(line.getD (i - 1) dfltSP).pos, (line.getD i dfltSP).pos,
      revColor (line.getD (i - 1) dfltSP).color, (line.getD (i - 1) dfltSP).thickness⟩

/-- All `cv2.line` calls of `draw_lines(image)`: the outer loop
`for line in self.lines`. -/
def draw_lines (l : Ledger) : List LineOp := (l.map lineOps).flatten

/-- Gesture classification of a frame in the legacy finger-up variant:
inactive when no hand is present, otherwise `check_if_index_finger_is_up`. -/
def fingerUpActive (obs : Option (List Landmark)) : Bool :=
  match obs with
  | none => false
  | some landmarks => Legacy.check_if_index_finger_is_up landmarks

/-- The default settings: `line_thickness = 10`, `line_color = (255, 0, 0)`. -/
def demoStyle : Style := ⟨10, (255, 0, 0)⟩

/-- A 21-landmark hand truncated to the first nine landmarks, whose index
fingertip (index 8) is one full normalized unit away from the thumb tip:
not pinched. -/
def unpinchedLandmarks : List Landmark :=
  [⟨0, 0⟩, ⟨0, 0⟩, ⟨0, 0⟩, ⟨0, 0⟩, ⟨0, 0⟩, ⟨0, 0⟩, ⟨0, 0⟩, ⟨0, 0⟩, ⟨1, 0⟩]

/-- A hand whose landmarks all share the same y-coordinate: the index
fingertip ties for highest but is not strictly above the others. -/
def tieLandmarks : List Landmark :=
  [⟨0, 1⟩, ⟨0, 1⟩, ⟨0, 1⟩, ⟨0, 1⟩, ⟨0, 1⟩, ⟨0, 1⟩, ⟨0, 1⟩, ⟨0, 1⟩, ⟨0, 1⟩]

/-- A two-point stroke recorded through `add_line` with the settings
changed between the two appends. -/
def demoStroke : Stroke :=
  lastStroke (add_line ⟨20, (0, 255, 0)⟩ ⟨3, 4⟩ (add_line demoStyle ⟨1, 2⟩ [[]]))

section LedgerLemmas

theorem lastStroke_concat (c : Ledger) (s : Stroke) :
    lastStroke (c ++ [s]) = s := by
  simp [lastStroke, List.getLastD_concat]

theorem lastStroke_mem {l : Ledger} (h : l ≠ []) : lastStroke l ∈ l := by
  induction l using List.reverseRecOn with
  | nil => exact absurd rfl h
  | append_singleton c s _ =>
      rw [lastStroke_concat]
      exact List.mem_append_right _ (List.mem_singleton.2 rfl)

theorem add_line_concat (st : Style) (p : Pt) (c : Ledger) (s : Stroke) :
    add_line st p (c ++ [s]) = c ++ [s ++ [⟨p, st.line_thickness, st.line_color⟩]] := by
  simp [add_line, lastStroke_concat, List.dropLast_concat]

theorem check_of_last_ne {l : Ledger} (h : lastStroke l ≠ []) :
    check_for_new_line l = l ++ [[]] := by
  simp [check_for_new_line, h]

theorem check_of_last_eq {l : Ledger} (h : lastStroke l = []) :
    check_for_new_line l = l := by
  simp [check_for_new_line, h]

theorem lastStroke_check (l : Ledger) :
    lastStroke (check_for_new_line l) = [] := by
  by_cases h : lastStroke l = []
  · rw [check_of_last_eq h, h]
  · rw [check_of_last_ne h, lastStroke_concat]

theorem inv_concat_iff (c : Ledger) (s : Stroke) :
    Inv (c ++ [s]) ↔ ∀ t ∈ c, t ≠ [] := by
  simp [Inv, List.dropLast_concat]

theorem undo_eq (l : Ledger) :
    undo l =
      if l.take (l.length - (if lastStroke l ≠ [] then 1 else 2)) ≠ [] then
        check_for_new_line (l.take (l.length - (if lastStroke l ≠ [] then 1 else 2)))
      else clear := rfl

theorem undo_concat {c : Ledger} (s : Stroke) (hc : ∀ t ∈ c, t ≠ []) :
    undo (c ++ [s]) = (if s = [] then c.dropLast else c) ++ [[]] := by
  by_cases hs : s = []
  · subst hs
    rw [if_pos rfl, undo_eq, lastStroke_concat]
    have hd : (if ([] : Stroke) ≠ [] then 1 else 2) = 2 := by simp
    rw [hd]
    have hlen : (c ++ [([] : Stroke)]).length - 2 = c.length - 1 := by simp
    rw [hlen]
    have htake : (c ++ [([] : Stroke)]).take (c.length - 1) = c.dropLast := by
      rw [List.take_append_of_le_length (Nat.sub_le _ _), ← List.dropLast_eq_take]
    rw [htake]
    by_cases hcd : c.dropLast = []
    · rw [hcd]
      simp [clear]
    · have hlast : lastStroke c.dropLast ≠ [] :=
        hc _ (List.dropLast_subset c (lastStroke_mem hcd))
      rw [if_pos hcd, check_of_last_ne hlast]
  · rw [if_neg hs, undo_eq, lastStroke_concat]
    have hd : (if s ≠ [] then 1 else 2) = 1 := by simp [hs]
    rw [hd]
    have hlen : (c ++ [s]).length - 1 = c.length := by simp
    rw [hlen, List.take_left]
    by_cases hcn : c = []
    · rw [hcn]
      simp [clear]
    · have hlast : lastStroke c ≠ [] := hc _ (lastStroke_mem hcn)
      rw [if_pos hcn, check_of_last_ne hlast]

theorem inv_add_line {l : Ledger} (st : Style) (p : Pt) (h : Inv l) :
    Inv (add_line st p l) := by
  induction l using List.reverseRecOn with
  | nil => exact absurd rfl h.1
  | append_singleton c s _ =>
      rw [add_line_concat, inv_concat_iff]
      exact (inv_concat_iff c s).1 h

theorem inv_check {l : Ledger} (h : Inv l) : Inv (check_for_new_line l) := by
  by_cases hl : lastStroke l = []
  · rwa [check_of_last_eq hl]
  · rw [check_of_last_ne hl, inv_concat_iff]
    induction l using List.reverseRecOn with
    | nil => exact absurd rfl h.1
    | append_singleton c s _ =>
        intro t ht
        rcases List.mem_append.1 ht with htc | hts
        · exact (inv_concat_iff c s).1 h t htc
        · rw [List.mem_singleton.1 hts]
          rwa [lastStroke_concat] at hl

theorem inv_undo {l : Ledger} (h : Inv l) : Inv (undo l) := by
  induction l using List.reverseRecOn with
  | nil => exact absurd rfl h.1
  | append_singleton c s _ =>
      have hc := (inv_concat_iff c s).1 h
      rw [undo_concat s hc, inv_concat_iff]
      by_cases hs : s = []
      · rw [if_pos hs]
        exact fun t ht => hc t (List.dropLast_subset c ht)
      · rw [if_neg hs]
        exact hc

theorem inv_clear : Inv clear := by
  constructor
  · simp [clear]
  · intro s hs
    simp [clear] at hs

theorem inv_init : Inv [[]] := inv_clear

theorem closedStrokes_concat_ne {s : Stroke} (c : Ledger) (hs : s ≠ []) :
    closedStrokes (c ++ [s]) = closedStrokes c ++ [s] := by
  simp [closedStrokes, List.filter_append, List.isEmpty_iff, hs]

theorem closedStrokes_concat_nil (c : Ledger) :
    closedStrokes (c ++ [[]]) = closedStrokes c := by
  simp [closedStrokes, List.filter_append]

theorem closedStrokes_of_all_ne {c : Ledger} (hc : ∀ t ∈ c, t ≠ []) :
    closedStrokes c = c := by
  rw [closedStrokes, List.filter_eq_self]
  intro t ht
  simpa [List.isEmpty_iff] using hc t ht

end LedgerLemmas

theorem inv_applyOp {l : Ledger} (h : Inv l) (op : LedgerOp) :
    Inv (applyOp l op) := by
  cases op with
  | append st p => exact inv_add_line st p h
  | boundary => exact inv_check h
  | undoOp => exact inv_undo h
  | clearOp => exact inv_clear

theorem inv_foldl (ops : List LedgerOp) {l : Ledger} (h : Inv l) :
    Inv (ops.foldl applyOp l) := by
  induction ops generalizing l with
  | nil => exact h
  | cons op ops ih => exact ih (inv_applyOp h op)

/-- Claim C1: starting from the initial ledger `[[]]`, every sequence of
ledger operations (append via `add_line`, boundary via
`check_for_new_line`, `undo`, `clear`) leaves the ledger non-empty with
every stroke except possibly the last one non-empty. -/
theorem applyOps_last_only_empty (ops : List LedgerOp) :
    applyOps ops ≠ [] ∧ ∀ s ∈ (applyOps ops).dropLast, s ≠ [] :=
  inv_foldl ops inv_init

theorem closed_undo {l : Ledger} (h : Inv l) :
    closedStrokes (undo l) = (closedStrokes l).dropLast := by
  induction l using List.reverseRecOn with
  | nil => exact absurd rfl h.1
  | append_singleton c s _ =>
      have hc := (inv_concat_iff c s).1 h
      rw [undo_concat s hc]
      by_cases hs : s = []
      · subst hs
        rw [if_pos rfl, closedStrokes_concat_nil, closedStrokes_concat_nil,
          closedStrokes_of_all_ne hc,
          closedStrokes_of_all_ne (fun t ht => hc t (List.dropLast_subset c ht))]
      · rw [if_neg hs, closedStrokes_concat_nil, closedStrokes_concat_ne c hs,
          List.dropLast_concat]

theorem lastStroke_undo {l : Ledger} (h : Inv l) :
    lastStroke (undo l) = [] := by
  induction l using List.reverseRecOn with
  | nil => exact absurd rfl h.1
  | append_singleton c s _ =>
      have hc := (inv_concat_iff c s).1 h
      rw [undo_concat s hc, lastStroke_concat]

/-- Claim C2: on any ledger satisfying the last-only-empty invariant,
`undo` removes exactly the last closed (non-empty) stroke and leaves a
trailing empty current stroke; in particular
`undo [S1, S2, []] = [S1, []]` for non-empty `S1`, `S2`. -/
theorem undo_removes_exactly_one_closed (l : Ledger) (h : Inv l) :
    closedStrokes (undo l) = (closedStrokes l).dropLast ∧
    lastStroke (undo l) = [] ∧
    ∀ s₁ s₂ : Stroke, s₁ ≠ [] → s₂ ≠ [] → undo [s₁, s₂, []] = [s₁, []] := by
  refine ⟨closed_undo h, lastStroke_undo h, ?_⟩
  intro s₁ s₂ h₁ h₂
  have hc : ∀ t ∈ [s₁, s₂], t ≠ [] := by
    intro t ht
    rcases List.mem_cons.1 ht with rfl | ht
    · exact h₁
    · rw [List.mem_singleton.1 ht]
      exact h₂
  have hu := undo_concat (c := [s₁, s₂]) [] hc
  simpa using hu

/-- Claim C2 witness. -/
theorem undo_removes_exactly_one_closed_witness :
    closedStrokes (undo [[dfltSP], [dfltSP], []]) =
      (closedStrokes [[dfltSP], [dfltSP], []]).dropLast ∧
    lastStroke (undo [[dfltSP], [dfltSP], []]) = [] ∧
    undo [[dfltSP], [dfltSP], []] = [[dfltSP], []] := by
  have h := undo_removes_exactly_one_closed [[dfltSP], [dfltSP], []]
    (by constructor <;> simp [dfltSP])
  exact ⟨h.1, h.2.1, h.2.2 [dfltSP] [dfltSP] (by simp) (by simp)⟩

theorem eq_init_of_closed_nil {l : Ledger} (h : Inv l)
    (hcl : closedStrokes l = []) : l = [[]] := by
  induction l using List.reverseRecOn with
  | nil => exact absurd rfl h.1
  | append_singleton c s _ =>
      have hc := (inv_concat_iff c s).1 h
      by_cases hs : s = []
      · subst hs
        rw [closedStrokes_concat_nil, closedStrokes_of_all_ne hc] at hcl
        subst hcl
        rfl
      · rw [closedStrokes_concat_ne c hs] at hcl
        exact absurd hcl (by simp)

theorem undo_iterate_closed {l : Ledger} (h : Inv l) :
    undo^[(closedStrokes l).length] l = [[]] := by
  generalize hn : (closedStrokes l).length = n
  induction n generalizing l with
  | zero =>
      rw [Function.iterate_zero_apply]
      exact eq_init_of_closed_nil h (List.length_eq_zero.1 hn)
  | succ n ih =>
      rw [Function.iterate_succ_apply]
      refine ih (inv_undo h) ?_
      rw [closed_undo h, List.length_dropLast, hn]
      rfl

/-- Claim C8: on any ledger satisfying the last-only-empty invariant,
iterating `undo` (once per closed stroke) reaches the single-empty-stroke
ledger, which is exactly what `clear` produces from any state, and `undo`
on that minimal ledger is a no-op. -/
theorem undo_iterated_equals_clear (l : Ledger) (h : Inv l) :
    undo^[(closedStrokes l).length] l = clear ∧
    clear = [[]] ∧
    undo clear = clear := by
  refine ⟨undo_iterate_closed h, rfl, ?_⟩
  rw [show (clear : Ledger) = [] ++ [[]] from rfl,
    undo_concat ([] : Stroke) (by simp)]
  simp [clear]

/-- Claim C8 witness. -/
theorem undo_iterated_equals_clear_witness :
    undo^[(closedStrokes [[dfltSP], []]).length] [[dfltSP], []] = clear ∧
    clear = [[]] ∧
    undo clear = clear :=
  undo_iterated_equals_clear [[dfltSP], []] (by constructor <;> simp [dfltSP])

theorem check_if_pinched_unpinched : VDB.check_if_pinched unpinchedLandmarks = false := by
  simp only [VDB.check_if_pinched, unpinchedLandmarks, INDEX_FINGER_TIP, THUMB_TIP,
    VDB.pinch_tolerance, List.getD_cons_succ, List.getD_cons_zero,
    decide_eq_false_iff_not]
  norm_num

/-- Claim C3 counterexample: a hand whose landmarks all share one y-value
is classified as finger-up by `check_if_index_finger_is_up` even though
the fingertip's y is not strictly less than every other landmark's y. -/
theorem finger_up_strict_counterexample :
    Legacy.check_if_index_finger_is_up tieLandmarks = true ∧
    ¬ (∀ i, i < tieLandmarks.length → i ≠ INDEX_FINGER_TIP →
        (tieLandmarks.getD INDEX_FINGER_TIP dfltLM).y <
          (tieLandmarks.getD i dfltLM).y) := by
  constructor
  · simp [Legacy.check_if_index_finger_is_up, tieLandmarks, INDEX_FINGER_TIP,
      List.all_eq_true]
  · intro hall
    have h0 := hall 0 (by norm_num [tieLandmarks]) (by norm_num [INDEX_FINGER_TIP])
    norm_num [tieLandmarks, INDEX_FINGER_TIP] at h0

/-- Claim C3 (amended): `check_if_index_finger_is_up` returns True iff
the index fingertip's normalized y-coordinate is less than or equal to
every landmark's y-coordinate (ties count as up; no landmark is strictly
above the fingertip). -/
theorem finger_up_iff_le_all (landmarks : List Landmark) :
    Legacy.check_if_index_finger_is_up landmarks = true ↔
      ∀ i, i < landmarks.length →
        (landmarks.getD INDEX_FINGER_TIP dfltLM).y ≤
          (landmarks.getD i dfltLM).y := by
  rw [Legacy.check_if_index_finger_is_up, List.all_eq_true]
  constructor
  · intro hall i hi
    have hm : landmarks.getD i dfltLM ∈ landmarks := by
      rw [List.getD_eq_getElem?_getD, List.getElem?_eq_getElem hi]
      exact List.getElem_mem hi
    simpa using hall _ hm
  · intro hle landmark hm
    obtain ⟨i, hi, rfl⟩ := List.getElem_of_mem hm
    have hgi : landmarks.getD i dfltLM = landmarks[i] := by
      rw [List.getD_eq_getElem?_getD, List.getElem?_eq_getElem hi]
      rfl
    have hd := hle i hi
    rw [hgi] at hd
    simpa using hd

/-- Claim C4 counterexample: in the pinch variant, a frame with a hand
present, DrawEnabled true and the gesture inactive does draw the
indicator, contradicting the claim that the indicator appears only when
the gesture is active and DrawEnabled is false. -/
theorem indicator_claim_counterexample :
    (VDB.run_frame demoStyle (some unpinchedLandmarks) 640 480 initState).indicatorDrawn
      = true ∧
    gestureActive (some unpinchedLandmarks) = false ∧
    initState.draw = true := by
  refine ⟨?_, ?_, rfl⟩
  · simp [VDB.run_frame, check_if_pinched_unpinched, initState]
  · simp [gestureActive, check_if_pinched_unpinched]

/-- Claim C4 (amended): the pinch variant draws the indicator iff a hand
is present, DrawEnabled is true and the gesture is inactive, and such a
frame appends no point; the legacy finger-up variant draws its circle
iff a hand is present and the gesture is active, regardless of
DrawEnabled. -/
theorem indicator_conditions (st : Style) (obs : Option (List Landmark))
    (w h : Nat) (s : VState) :
    ((VDB.run_frame st obs w h s).indicatorDrawn = true ↔
      handPresent obs = true ∧ s.draw = true ∧ gestureActive obs = false) ∧
    ((VDB.run_frame st obs w h s).indicatorDrawn = true →
      (VDB.run_frame st obs w h s).pointAppended = false) ∧
    ((Legacy.run_frame st obs w h s).circleDrawn = true ↔
      handPresent obs = true ∧ fingerUpActive obs = true) := by
  cases obs with
  | none => simp [VDB.run_frame, Legacy.run_frame, handPresent]
  | some landmarks =>
      cases hp : VDB.check_if_pinched landmarks <;>
        cases hu : Legacy.check_if_index_finger_is_up landmarks <;>
          cases hd : s.draw <;>
            simp [VDB.run_frame, Legacy.run_frame, handPresent, gestureActive,
              fingerUpActive, hp, hu, hd]

/-- Claim C5: on a failed frame read the VirtualDrawingBoard loop halts,
emits the error signal and never touches the frame, while the legacy
`src/app.py` loop unpacks `image.shape` before consulting `success` and
crashes with an uncaught exception, emitting no signal at all. -/
theorem frame_read_failure_outcomes (st : Style) (obs : Option (List Landmark))
    (s : VState) :
    VDB.run_iteration none obs st s = ⟨true, true, false, s⟩ ∧
    Legacy.run_iteration none obs st s = .crash :=
  ⟨rfl, rfl⟩

theorem stepFrame_inactive {f : FrameIn} (s : VState)
    (h0 : gestureActive f.obs = false) :
    stepFrame s f = ⟨check_for_new_line s.lines, s.draw⟩ := by
  rcases f with ⟨st, obs, w, h⟩
  cases obs with
  | none => rfl
  | some landmarks =>
      have hp : VDB.check_if_pinched landmarks = false := by
        simpa [gestureActive] using h0
      simp [stepFrame, VDB.run_frame, hp]

theorem stepFrame_lines_cases (s : VState) (f : FrameIn) :
    (stepFrame s f).lines = s.lines ∨
    (stepFrame s f).lines = check_for_new_line s.lines ∨
    ∃ st p, (stepFrame s f).lines = add_line st p s.lines := by
  rcases f with ⟨st, obs, w, h⟩
  cases obs with
  | none => exact Or.inr (Or.inl rfl)
  | some landmarks =>
      cases hp : VDB.check_if_pinched landmarks with
      | false => exact Or.inr (Or.inl (by simp [stepFrame, VDB.run_frame, hp]))
      | true =>
          cases hd : s.draw with
          | false => exact Or.inl (by simp [stepFrame, VDB.run_frame, hp, hd])
          | true =>
              refine Or.inr (Or.inr ⟨st, VDB.get_coordinates landmarks w h, ?_⟩)
              simp [stepFrame, VDB.run_frame, hp, hd]

theorem take_add_line {l : Ledger} {n : Nat} (st : Style) (p : Pt)
    (h : n < l.length) :
    (add_line st p l).take n = l.take n ∧ (add_line st p l).length = l.length := by
  have h1 : n ≤ l.length - 1 := by omega
  constructor
  · rw [add_line, List.take_append_of_le_length (by rw [List.length_dropLast]; exact h1),
      List.dropLast_eq_take, List.take_take, Nat.min_eq_left h1]
  · rw [add_line]
    simp only [List.length_append, List.length_dropLast, List.length_cons,
      List.length_nil]
    omega

theorem take_check_for_new_line {l : Ledger} {n : Nat} (h : n ≤ l.length) :
    (check_for_new_line l).take n = l.take n ∧
    l.length ≤ (check_for_new_line l).length := by
  by_cases hl : lastStroke l = []
  · rw [check_of_last_eq hl]
    exact ⟨rfl, le_refl _⟩
  · rw [check_of_last_ne hl]
    exact ⟨List.take_append_of_le_length h, by simp⟩

theorem stepFrame_preserves_prefix {l₀ : Ledger} {s : VState} (f : FrameIn)
    (h1 : s.lines.take l₀.length = l₀) (h2 : l₀.length < s.lines.length) :
    (stepFrame s f).lines.take l₀.length = l₀ ∧
    l₀.length < (stepFrame s f).lines.length := by
  rcases stepFrame_lines_cases s f with hc | hc | ⟨st, p, hc⟩
  · rw [hc]
    exact ⟨h1, h2⟩
  · rw [hc]
    obtain ⟨ht, hlen⟩ := take_check_for_new_line (le_of_lt h2)
    exact ⟨by rw [ht, h1], lt_of_lt_of_le h2 hlen⟩
  · rw [hc]
    obtain ⟨ht, hlen⟩ := take_add_line st p h2
    exact ⟨by rw [ht, h1], by rw [hlen]; exact h2⟩

theorem runFrames_preserves_prefix {l₀ : Ledger} (fs : List FrameIn) {s : VState}
    (h1 : s.lines.take l₀.length = l₀) (h2 : l₀.length < s.lines.length) :
    (runFrames s fs).lines.take l₀.length = l₀ ∧
    l₀.length < (runFrames s fs).lines.length := by
  induction fs generalizing s with
  | nil => exact ⟨h1, h2⟩
  | cons f rest ih =>
      obtain ⟨h1a, h2a⟩ := stepFrame_preserves_prefix f h1 h2
      exact ih h1a h2a

/-- Claim C6: if some points have been recorded (the current stroke is
non-empty) and a frame with an inactive gesture (no hand, or hand not
pinched) is processed, then after any further frames the old strokes
survive unchanged as a proper prefix of the ledger, so every point
recorded later lives in a strictly later stroke than every point
recorded before the inactivation. -/
theorem stroke_boundary_after_inactivation (s : VState) (f₀ : FrameIn)
    (fs : List FrameIn) (hne : lastStroke s.lines ≠ [])
    (h0 : gestureActive f₀.obs = false) :
    (runFrames (stepFrame s f₀) fs).lines.take s.lines.length = s.lines ∧
    s.lines.length < (runFrames (stepFrame s f₀) fs).lines.length := by
  rw [stepFrame_inactive s h0]
  have hck : check_for_new_line s.lines = s.lines ++ [[]] := check_of_last_ne hne
  refine runFrames_preserves_prefix fs ?_ ?_
  · show (check_for_new_line s.lines).take s.lines.length = s.lines
    rw [hck, List.take_left]
  · show s.lines.length < (check_for_new_line s.lines).length
    rw [hck]
    simp

/-- Claim C6 witness. -/
theorem stroke_boundary_after_inactivation_witness :
    (runFrames (stepFrame ⟨[[dfltSP]], true⟩ ⟨demoStyle, none, 640, 480⟩)
        []).lines.take 1 = [[dfltSP]] ∧
    1 < (runFrames (stepFrame ⟨[[dfltSP]], true⟩ ⟨demoStyle, none, 640, 480⟩)
        []).lines.length :=
  stroke_boundary_after_inactivation ⟨[[dfltSP]], true⟩ ⟨demoStyle, none, 640, 480⟩
    [] (by simp [lastStroke]) rfl

/-- Auxiliary invariant for C7: whenever DrawEnabled is off, the current
stroke is empty (toggling off always runs `check_for_new_line`). -/
def drawOffLastEmpty (s : VState) : Prop :=
  s.draw = false → lastStroke s.lines = []

theorem lastStroke_undo_any (l : Ledger) : lastStroke (undo l) = [] := by
  rw [undo_eq]
  split
  all_goals split
  all_goals first
    | exact lastStroke_check _
    | rfl

theorem stepFrame_draw (s : VState) (f : FrameIn) :
    (stepFrame s f).draw = s.draw := by
  rcases f with ⟨st, obs, w, h⟩
  cases obs with
  | none => rfl
  | some landmarks =>
      cases hp : VDB.check_if_pinched landmarks <;> cases hd : s.draw <;>
        simp [stepFrame, VDB.run_frame, hp, hd]

theorem stepFrame_lines_of_draw_off (s : VState) (f : FrameIn)
    (hd : s.draw = false) (hl : lastStroke s.lines = []) :
    (stepFrame s f).lines = s.lines := by
  rcases f with ⟨st, obs, w, h⟩
  cases obs with
  | none => simp [stepFrame, VDB.run_frame, check_of_last_eq hl]
  | some landmarks =>
      cases hp : VDB.check_if_pinched landmarks <;>
        simp [stepFrame, VDB.run_frame, hp, hd, check_of_last_eq hl]

theorem stepEvent_preserves_drawOff (s : VState) (e : Event)
    (hJ : drawOffLastEmpty s) : drawOffLastEmpty (stepEvent s e) := by
  cases e with
  | frame f =>
      intro hdf
      have hds : s.draw = false := by
        rw [← stepFrame_draw s f]
        exact hdf
      have hl := hJ hds
      show lastStroke (stepFrame s f).lines = []
      rw [stepFrame_lines_of_draw_off s f hds hl]
      exact hl
  | toggle => exact fun _ => lastStroke_check _
  | undoCmd => exact fun _ => lastStroke_undo_any _
  | clearCmd => exact fun _ => rfl

theorem reachable_drawOffLastEmpty {s : VState} (hr : Reachable s) :
    drawOffLastEmpty s := by
  obtain ⟨evs, rfl⟩ := hr
  suffices h : ∀ (es : List Event) (t : VState),
      drawOffLastEmpty t → drawOffLastEmpty (es.foldl stepEvent t) by
    refine h evs initState ?_
    intro hd
    simp [initState] at hd
  intro es
  induction es with
  | nil => exact fun t ht => ht
  | cons e rest ih => exact fun t ht => ih _ (stepEvent_preserves_drawOff t e ht)

/-- Claim C7: in every reachable state with DrawEnabled off, processing
a frame leaves `self.lines` unchanged, whatever the hand observation. -/
theorem frame_keeps_ledger_when_draw_off (s : VState) (hr : Reachable s)
    (hd : s.draw = false) (f : FrameIn) :
    (stepFrame s f).lines = s.lines :=
  stepFrame_lines_of_draw_off s f hd (reachable_drawOffLastEmpty hr hd)

/-- Claim C7 witness. -/
theorem frame_keeps_ledger_when_draw_off_witness :
    (stepFrame ⟨[[]], false⟩
        ⟨demoStyle, some unpinchedLandmarks, 640, 480⟩).lines = [[]] :=
  frame_keeps_ledger_when_draw_off ⟨[[]], false⟩ ⟨[Event.toggle], rfl⟩ rfl
    ⟨demoStyle, some unpinchedLandmarks, 640, 480⟩

theorem filterMap_range_succ_skip_zero {β : Type} (g : Nat → β) (m : Nat) :
    ((List.range (m + 1)).filterMap fun i => if i = 0 then none else some (g i)) =
      (List.range m).map fun i => g (i + 1) := by
  rw [List.range_succ_eq_map, List.filterMap_cons, List.filterMap_map]
  have hcomp : ((fun i => if i = 0 then none else some (g i)) ∘ Nat.succ) =
      fun i => some (g (i + 1)) := by
    funext i
    simp
  rw [hcomp, show (fun i => some (g (i + 1))) = some ∘ (fun i => g (i + 1)) from rfl,
    List.filterMap_eq_map]
  simp

theorem lineOps_eq (line : Stroke) :
    lineOps line = (List.range (line.length - 1)).map fun i =>
      ⟨(line.getD i dfltSP).pos, (line.getD (i + 1) dfltSP).pos,
        revColor (line.getD i dfltSP).color, (line.getD i dfltSP).thickness⟩ := by
  cases hl : line.length with
  | zero => rw [lineOps, hl]; rfl
  | succ m =>
      rw [lineOps, hl, filterMap_range_succ_skip_zero, Nat.succ_sub_one]
      refine List.map_congr_left ?_
      intro i _
      simp [Nat.add_sub_cancel]

/-- Claim C9: `draw_lines` issues, for a stroke of n points, exactly
n - 1 (so max(n-1,0)) `cv2.line` calls — fewer than two points render
nothing — and segment j joins points j and j+1 using the thickness and
(channel-reversed) color stored with the earlier point j at its append
time. -/
theorem draw_lines_segment_spec (line : Stroke) :
    draw_lines [line] = lineOps line ∧
    (lineOps line).length = line.length - 1 ∧
    (line.length < 2 → lineOps line = []) ∧
    ∀ j, j + 1 < line.length →
      (lineOps line).getD j dfltLO =
        ⟨(line.getD j dfltSP).pos, (line.getD (j + 1) dfltSP).pos,
          revColor (line.getD j dfltSP).color, (line.getD j dfltSP).thickness⟩ := by
  refine ⟨by simp [draw_lines], ?_, ?_, ?_⟩
  · rw [lineOps_eq, List.length_map, List.length_range]
  · intro h2
    rw [lineOps_eq, show line.length - 1 = 0 by omega]
    rfl
  · intro j hj
    have hjlen : j < line.length - 1 := by omega
    rw [lineOps_eq, List.getD_eq_getElem?_getD,
      List.getElem?_eq_getElem (by simpa using hjlen)]
    simp

/-- Claim C9 witness: the two-point demo stroke appended under two
different settings renders exactly one segment with the first point's
thickness 10 and RGB color (255,0,0), i.e. BGR (0,0,255). -/
theorem draw_lines_segment_spec_witness :
    (lineOps demoStroke).length = 1 ∧
    (lineOps demoStroke).getD 0 dfltLO = ⟨⟨1, 2⟩, ⟨3, 4⟩, (0, 0, 255), 10⟩ := by
  have h := draw_lines_segment_spec demoStroke
  constructor
  · rw [h.2.1]
    rfl
  · rw [h.2.2.2 0 (by decide)]
    decide

/-- Claim C10 counterexample: `undo` does not merely drop trailing
strokes — on `[[p], [p]]` dropping one trailing stroke would give
`[[p]]` (and dropping two would give `[]`), but `undo` produces
`[[p], []]`, re-appending a fresh empty current stroke. -/
theorem undo_not_truncation_counterexample :
    undo [[dfltSP], [dfltSP]] ≠ ([[dfltSP], [dfltSP]] : Ledger).take (2 - 1) ∧
    undo [[dfltSP], [dfltSP]] ≠ ([[dfltSP], [dfltSP]] : Ledger).take (2 - 2) ∧
    undo [[dfltSP], [dfltSP]] = [[dfltSP], []] := by decide

/-- Claim C10 (amended): on ledgers satisfying the invariant, `add_line`
only extends the last stroke by one point (all earlier strokes
untouched), `check_for_new_line` at most appends one empty stroke, and
`undo` truncates one or two trailing strokes and then re-establishes a
trailing empty stroke; no surviving stroke has its points reordered,
edited or deleted. -/
theorem ops_touch_only_trailing (l : Ledger) (h : Inv l) (st : Style) (p : Pt) :
    (add_line st p l).dropLast = l.dropLast ∧
    lastStroke (add_line st p l) =
      lastStroke l ++ [⟨p, st.line_thickness, st.line_color⟩] ∧
    (check_for_new_line l = l ∨ check_for_new_line l = l ++ [[]]) ∧
    (undo l = l.take (l.length - 1) ++ [[]] ∨
      undo l = l.take (l.length - 2) ++ [[]]) := by
  refine ⟨?_, ?_, ?_, ?_⟩
  · rw [add_line, List.dropLast_concat]
  · rw [add_line, lastStroke_concat]
  · by_cases hl : lastStroke l = []
    · exact Or.inl (check_of_last_eq hl)
    · exact Or.inr (check_of_last_ne hl)
  · induction l using List.reverseRecOn with
    | nil => exact absurd rfl h.1
    | append_singleton c s _ =>
        have hc := (inv_concat_iff c s).1 h
        rw [undo_concat s hc]
        by_cases hs : s = []
        · refine Or.inr ?_
          rw [if_pos hs]
          congr 1
          subst hs
          rw [show (c ++ [([] : Stroke)]).length - 2 = c.length - 1 by simp,
            List.take_append_of_le_length (Nat.sub_le _ _), List.dropLast_eq_take]
        · refine Or.inl ?_
          rw [if_neg hs]
          congr 1
          rw [show (c ++ [s]).length - 1 = c.length by simp, List.take_left]

/-- Claim C10 witness. -/
theorem ops_touch_only_trailing_witness :
    (add_line demoStyle ⟨1, 2⟩ [[dfltSP], []]).dropLast =
      ([[dfltSP], []] : Ledger).dropLast ∧
    lastStroke (add_line demoStyle ⟨1, 2⟩ [[dfltSP], []]) =
      lastStroke [[dfltSP], []] ++
        [⟨⟨1, 2⟩, demoStyle.line_thickness, demoStyle.line_color⟩] ∧
    (check_for_new_line [[dfltSP], []] = [[dfltSP], []] ∨
      check_for_new_line [[dfltSP], []] = [[dfltSP], []] ++ [[]]) ∧
    (undo [[dfltSP], []] = ([[dfltSP], []] : Ledger).take (2 - 1) ++ [[]] ∨
      undo [[dfltSP], []] = ([[dfltSP], []] : Ledger).take (2 - 2) ++ [[]]) :=
  ops_touch_only_trailing [[dfltSP], []] (by constructor <;> simp [dfltSP])
    demoStyle ⟨1, 2⟩

end HandDetection
